import Mathlib

/-!
Shallow embedding of the constant-size block serialization core of the
iblbm repository (src/core/src/Serializable.hpp), together with theorems
checking the specification of that code.

Conventions of the embedding:
* C++ `gsl::index` (a signed `std::ptrdiff_t`) is modelled as `Int`;
  `std::size_t` quantities (block sizes, block counts, lengths) as `Nat`.
  The code never exercises overflow on these indices (the cursor starts at
  0 and only grows), so unbounded integers are faithful.
* A `bool*` block address is modelled as `Option Ptr` with `none`
  standing for `nullptr` (the sentinel).
* Each register helper mutates three by-reference locations of the
  enclosing `pGetBlock` invocation: `rBlockSize`, `rCurrentBlockIndex`
  and `rpData`.  They are gathered into a state record `RegState` and the
  helpers become state transformers `Int → RegState → RegState` applied
  to the requested `blockIndex`.
* A nested `Serializable` seen through the base-class interface is a
  record `SerIface` holding its `GetNumBlock()`, `GetSerializableSize()`
  results and its `pGetBlock` as a function from requested index and
  incoming `rBlockSize` value (the reference is read/write in C++) to the
  returned pointer and the written-back size.
-/

namespace iblbm

/-- Abstract memory addresses standing for the `bool*` values the C++
code passes around; `Option Ptr` with `none` models `nullptr`. -/
abbrev Ptr := Nat

/-- The view of a nested `Serializable` through the abstract interface
(src/core/src/Serializable.hpp lines 108-120): `GetNumBlock`,
`GetSerializableSize`, and `pGetBlock` (index, incoming block size,
isLoad) returning the block pointer and the written-back block size. -/
structure SerIface where
  numBlock : Nat
  serializableSize : Nat
  getBlock : Int → Nat → Bool → Option Ptr × Nat

/-- The by-reference locations a register helper can write inside one
`pGetBlock` invocation: `rBlockSize`, `rCurrentBlockIndex` (the
registration cursor) and `rpData`. -/
structure RegState where
  blockSize : Nat
  currentBlockIndex : Int
  pData : Option Ptr
  deriving Repr, DecidableEq

/-- The state at the top of every `pGetBlock` body, per the documented
obligatory pattern: `std::size_t current_block = 0; bool* p_data =
nullptr;` with `rBlockSize` not yet written. -/
def initRegState : RegState := ⟨0, 0, none⟩

/-- `Serializable::RegisterVar` (src/core/src/Serializable.hpp lines
192-207): if `blockIndex == rCurrentBlockIndex` set
`rBlockSize = sizeof(DataType) * length` and point `rpData` at the
datum; then `++rCurrentBlockIndex` unconditionally. -/
def RegisterVar (sizeofDataType : Nat) (addr : Ptr) (length : Nat)
    (blockIndex : Int) (st : RegState) : RegState :=
  let st1 :=
    if blockIndex = st.currentBlockIndex then
      { st with blockSize := sizeofDataType * length, pData := some addr }
    else st
  { st1 with currentBlockIndex := st1.currentBlockIndex + 1 }

/-- `Serializable::RegisterConstSizeSerializable`
(src/core/src/Serializable.hpp lines 236-254): when the requested index
falls in `[rCurrentBlockIndex, rCurrentBlockIndex + rData.GetNumBlock())`
delegate to the nested entity, `rpData = rData.pGetBlock(blockIndex -
rCurrentBlockIndex, rBlockSize, isLoad)`; then `rCurrentBlockIndex +=
rData.GetNumBlock()` unconditionally. -/
def RegisterConstSizeSerializable (rData : SerIface) (isLoad : Bool)
    (blockIndex : Int) (st : RegState) : RegState :=
  let st1 :=
    if st.currentBlockIndex ≤ blockIndex ∧
        blockIndex < st.currentBlockIndex + (rData.numBlock : Int) then
      let r := rData.getBlock (blockIndex - st.currentBlockIndex)
        st.blockSize isLoad
      { st with blockSize := r.2, pData := r.1 }
    else st
  { st1 with currentBlockIndex := st1.currentBlockIndex + (rData.numBlock : Int) }

/-- `Serializable::RegisterConstSizeSerializables`
(src/core/src/Serializable.hpp lines 284-307): everything is guarded by
`if (length > 0)`.  The in-range test and the cursor advance use
`length * rData[0].GetNumBlock()`; inside the hit branch
`local_block_idx = blockIndex - rCurrentBlockIndex` (non-negative under
the guard, and converted to the unsigned `std::size_t` by the mixed
signed/unsigned arithmetic, modelled by `Int.toNat`), `num_block` is the
first element's block count (the source spells the accessor
`GetNumblock()` there), and the call delegates to
`rData[local_block_idx / num_block].pGetBlock(local_block_idx %
num_block, rBlockSize, isLoad)`.  The array `rData` is modelled as the
indexing function `Nat → SerIface`. -/
def RegisterConstSizeSerializables (rData : Nat → SerIface) (length : Nat)
    (isLoad : Bool) (blockIndex : Int) (st : RegState) : RegState :=
  if 0 < length then
    let st1 :=
      if st.currentBlockIndex ≤ blockIndex ∧
          blockIndex < st.currentBlockIndex +
            ((length * (rData 0).numBlock : Nat) : Int) then
        let localBlockIdx := (blockIndex - st.currentBlockIndex).toNat
        let numBlock := (rData 0).numBlock
        let r := (rData (localBlockIdx / numBlock)).getBlock
          ((localBlockIdx % numBlock : Nat) : Int) st.blockSize isLoad
        { st with blockSize := r.2, pData := r.1 }
      else st
    { st1 with currentBlockIndex := st1.currentBlockIndex +
        ((length * (rData 0).numBlock : Nat) : Int) }
  else st

/-- `Serializable::SumNumBlock::operator()`
(src/core/src/Serializable.hpp lines 141-150): running total plus the
entity's `GetNumBlock()`. -/
def SumNumBlock (sum : Nat) (rSerializable : SerIface) : Nat :=
  sum + rSerializable.numBlock

/-- `Serializable::SumSerializableSize::operator()`
(src/core/src/Serializable.hpp lines 160-169): running total plus the
entity's `GetSerializableSize()`. -/
def SumSerializableSize (sum : Nat) (rSerializable : SerIface) : Nat :=
  sum + rSerializable.serializableSize

/-- A primitive member registered through `RegisterVar`: its element
size `sizeof(DataType)`, its length and its address. -/
structure VarField where
  sizeofDataType : Nat
  length : Nat
  addr : Ptr
  deriving Repr, DecidableEq

/-- The single block a `VarField` occupies has size
`sizeof(DataType) * length` (Serializable.hpp line 202). -/
def VarField.blockSize (f : VarField) : Nat := f.sizeofDataType * f.length

/-- One `RegisterVar` call for a `VarField`. -/
def registerVarField (f : VarField) (blockIndex : Int) (st : RegState) :
    RegState :=
  RegisterVar f.sizeofDataType f.addr f.length blockIndex st

/-- The `pGetBlock` body of an entity whose members are a list of
primitive fields, each registered with `RegisterVar` in order, following
the documented obligatory pattern (Serializable.hpp lines 101-107). -/
def registerFields (fs : List VarField) (blockIndex : Int) (st : RegState) :
    RegState :=
  fs.foldl (fun s f => registerVarField f blockIndex s) st

/-- The observable result of one `pGetBlock(blockIndex, rBlockSize,
false)` call on the list-of-fields entity: the returned pointer (or the
`nullptr` sentinel) and the reported block size. -/
def fieldsGetBlock (fs : List VarField) (blockIndex : Int) :
    Option Ptr × Nat :=
  let st := registerFields fs blockIndex initRegState
  (st.pData, st.blockSize)

/-- Modelled from the spec: the subclass implementation of
`GetNumBlock()` is absent from src/ (the method is pure virtual at
Serializable.hpp line 117); the spec requires it to be consistent with
the number of blocks the enumeration produces, which for the
list-of-fields entity is the number of fields. -/
def fieldsGetNumBlock (fs : List VarField) : Nat := fs.length

/-- Modelled from the spec: the subclass implementation of
`GetSerializableSize()` is absent from src/ (pure virtual at
Serializable.hpp line 120); the spec requires it to equal the sum of all
block sizes one full save-mode enumeration reports. -/
def fieldsGetSerializableSize (fs : List VarField) : Nat :=
  (fs.map VarField.blockSize).sum

/-- The `pGetBlock` body of a composite registering, in order, a
primitive field `A` (`RegisterVar`), then a nested constant-size entity
`B` (`RegisterConstSizeSerializable`), starting from the documented
initial state. -/
def compositeAB (A : VarField) (B : SerIface) (isLoad : Bool)
    (blockIndex : Int) : RegState :=
  RegisterConstSizeSerializable B isLoad blockIndex
    (registerVarField A blockIndex initRegState)

/-- The `pGetBlock` body of a composite registering, in order, a
primitive field `A`, a nested constant-size entity `B`, and an array
`C` of `m` constant-size entities (`RegisterConstSizeSerializables`). -/
def compositeABC (A : VarField) (B : SerIface) (C : Nat → SerIface)
    (m : Nat) (isLoad : Bool) (blockIndex : Int) : RegState :=
  RegisterConstSizeSerializables C m isLoad blockIndex
    (compositeAB A B isLoad blockIndex)

/-- Modelled from the spec: the bodies of `Serializable::Save` and
`Serializable::Load` (declared at Serializable.hpp lines 122-131) are
not under src/.  An entity's in-memory serializable state is its ordered
sequence of blocks, each a list of bytes; its structural configuration
is the list of block sizes. -/
structure MemEntity where
  blocks : List (List Nat)
  deriving Repr, DecidableEq

/-- The structural configuration of a `MemEntity`: its block sizes in
index order. -/
def MemEntity.config (e : MemEntity) : List Nat :=
  e.blocks.map List.length

/-- Modelled from the spec: `GetSerializableSize()` of a `MemEntity` is
the sum of its block sizes. -/
def MemEntity.serializableSize (e : MemEntity) : Nat :=
  (e.blocks.map List.length).sum

/-- Modelled from the spec: `Serializable::Save` writes the raw
concatenation of every block's bytes in ascending index order. -/
def MemEntity.save (e : MemEntity) : List Nat :=
  e.blocks.flatten

/-- Modelled from the spec: the load enumeration reads, for each block
size of the receiving entity's configuration in index order, that many
bytes sequentially from the stream into the block. -/
def loadChunks : List Nat → List Nat → List (List Nat)
  | [], _ => []
  | s :: rest, stream => stream.take s :: loadChunks rest (stream.drop s)

/-- Modelled from the spec: `Serializable::Load` drives a full load
enumeration against the stream, overwriting the receiving entity's
blocks with bytes read sequentially. -/
def MemEntity.load (fresh : MemEntity) (stream : List Nat) : MemEntity :=
  ⟨loadChunks fresh.config stream⟩

/-- Load failure cases the spec distinguishes: missing file, or file
shorter than the entity's serialized size. -/
inductive LoadError where
  | fileNotFound
  | shortRead
  deriving Repr, DecidableEq

/-- Modelled from the spec: `Serializable::Load` against a file that may
be absent (`none`) or hold `bytes`.  It fails if the file does not exist
or is shorter than `GetSerializableSize()`; a failure aborts and is
returned to the caller (no retry, no zero-filling). -/
def MemEntity.loadFromFile (e : MemEntity) (file : Option (List Nat)) :
    Except LoadError MemEntity :=
  match file with
  | none => .error .fileNotFound
  | some bytes =>
    if bytes.length < e.serializableSize then .error .shortRead
    else .ok (e.load bytes)

/-! ### Helper lemmas about the register helpers -/

theorem registerVar_cursor (s : Nat) (a : Ptr) (l : Nat) (i : Int)
    (st : RegState) :
    (RegisterVar s a l i st).currentBlockIndex = st.currentBlockIndex + 1 := by
  simp only [RegisterVar]
  split <;> rfl

theorem registerVar_hit (s : Nat) (a : Ptr) (l : Nat) (i : Int)
    (st : RegState) (h : i = st.currentBlockIndex) :
    (RegisterVar s a l i st).blockSize = s * l
    ∧ (RegisterVar s a l i st).pData = some a := by
  simp [RegisterVar, h]

theorem registerVar_miss (s : Nat) (a : Ptr) (l : Nat) (i : Int)
    (st : RegState) (h : i ≠ st.currentBlockIndex) :
    (RegisterVar s a l i st).blockSize = st.blockSize
    ∧ (RegisterVar s a l i st).pData = st.pData := by
  simp [RegisterVar, h]

theorem rcs_cursor (e : SerIface) (isLoad : Bool)
    (i : Int) (st : RegState) :
    (RegisterConstSizeSerializable e isLoad i st).currentBlockIndex
      = st.currentBlockIndex + e.numBlock := by
  simp only [RegisterConstSizeSerializable]
  split <;> rfl

theorem rcs_hit (e : SerIface) (isLoad : Bool)
    (i : Int) (st : RegState)
    (h : st.currentBlockIndex ≤ i ∧ i < st.currentBlockIndex + e.numBlock) :
    (RegisterConstSizeSerializable e isLoad i st).pData
      = (e.getBlock (i - st.currentBlockIndex) st.blockSize isLoad).1
    ∧ (RegisterConstSizeSerializable e isLoad i st).blockSize
      = (e.getBlock (i - st.currentBlockIndex) st.blockSize isLoad).2 := by
  simp [RegisterConstSizeSerializable, h]

theorem rcs_miss (e : SerIface) (isLoad : Bool)
    (i : Int) (st : RegState)
    (h : ¬(st.currentBlockIndex ≤ i ∧ i < st.currentBlockIndex + e.numBlock)) :
    (RegisterConstSizeSerializable e isLoad i st).pData = st.pData
    ∧ (RegisterConstSizeSerializable e isLoad i st).blockSize = st.blockSize := by
  simp [RegisterConstSizeSerializable, h]

theorem rcss_zero (rData : Nat → SerIface)
    (isLoad : Bool) (i : Int) (st : RegState) :
    RegisterConstSizeSerializables rData 0 isLoad i st = st := by
  simp [RegisterConstSizeSerializables]

theorem rcss_cursor (rData : Nat → SerIface)
    (len : Nat) (isLoad : Bool) (i : Int) (st : RegState) (hlen : 0 < len) :
    (RegisterConstSizeSerializables rData len isLoad i st).currentBlockIndex
      = st.currentBlockIndex + (len * (rData 0).numBlock : Nat) := by
  simp only [RegisterConstSizeSerializables, if_pos hlen]
  split <;> rfl

theorem rcss_hit (rData : Nat → SerIface)
    (len : Nat) (isLoad : Bool) (i : Int) (st : RegState) (hlen : 0 < len)
    (h : st.currentBlockIndex ≤ i ∧
        i < st.currentBlockIndex + (len * (rData 0).numBlock : Nat)) :
    (RegisterConstSizeSerializables rData len isLoad i st).pData
      = ((rData ((i - st.currentBlockIndex).toNat / (rData 0).numBlock)).getBlock
          (((i - st.currentBlockIndex).toNat % (rData 0).numBlock : Nat) : Int)
          st.blockSize isLoad).1
    ∧ (RegisterConstSizeSerializables rData len isLoad i st).blockSize
      = ((rData ((i - st.currentBlockIndex).toNat / (rData 0).numBlock)).getBlock
          (((i - st.currentBlockIndex).toNat % (rData 0).numBlock : Nat) : Int)
          st.blockSize isLoad).2 := by
  simp only [RegisterConstSizeSerializables, if_pos hlen, if_pos h]
  exact ⟨trivial, trivial⟩

theorem rcss_miss (rData : Nat → SerIface)
    (len : Nat) (isLoad : Bool) (i : Int) (st : RegState)
    (h : ¬(st.currentBlockIndex ≤ i ∧
        i < st.currentBlockIndex + (len * (rData 0).numBlock : Nat))) :
    (RegisterConstSizeSerializables rData len isLoad i st).pData = st.pData
    ∧ (RegisterConstSizeSerializables rData len isLoad i st).blockSize
      = st.blockSize := by
  simp only [RegisterConstSizeSerializables]
  split
  · simp [h]
  · exact ⟨rfl, rfl⟩

instance : Inhabited VarField := ⟨⟨0, 0, 0⟩⟩

theorem registerFields_cursor (fs : List VarField) (i : Int) (st : RegState) :
    (registerFields fs i st).currentBlockIndex
      = st.currentBlockIndex + fs.length := by
  induction fs generalizing st with
  | nil => simp [registerFields]
  | cons f fs ih =>
    have h2 := ih (registerVarField f i st)
    simp only [registerFields, List.foldl_cons] at h2 ⊢
    rw [h2, registerVarField, registerVar_cursor]
    simp only [List.length_cons]
    push_cast
    ring

theorem registerFields_miss (fs : List VarField) (i : Int) (st : RegState)
    (h : i < st.currentBlockIndex ∨ st.currentBlockIndex + fs.length ≤ i) :
    (registerFields fs i st).pData = st.pData
    ∧ (registerFields fs i st).blockSize = st.blockSize := by
  induction fs generalizing st with
  | nil => exact ⟨rfl, rfl⟩
  | cons f fs ih =>
    simp only [List.length_cons] at h
    push_cast at h
    have hne : i ≠ st.currentBlockIndex := by omega
    have hcur := registerVar_cursor f.sizeofDataType f.addr f.length i st
    have hmiss := registerVar_miss f.sizeofDataType f.addr f.length i st hne
    have hcond : i < (RegisterVar f.sizeofDataType f.addr f.length i
          st).currentBlockIndex
        ∨ (RegisterVar f.sizeofDataType f.addr f.length i
            st).currentBlockIndex + fs.length ≤ i := by
      rw [hcur]; omega
    have ih2 := ih (RegisterVar f.sizeofDataType f.addr f.length i st) hcond
    simp only [registerFields, List.foldl_cons, registerVarField] at ih2 ⊢
    rw [ih2.1, ih2.2, hmiss.1, hmiss.2]
    exact ⟨rfl, rfl⟩

theorem registerFields_hit (fs : List VarField) (i : Int) (st : RegState)
    (h1 : st.currentBlockIndex ≤ i)
    (h2 : i < st.currentBlockIndex + fs.length) :
    (registerFields fs i st).pData
      = some (fs.getD (i - st.currentBlockIndex).toNat default).addr
    ∧ (registerFields fs i st).blockSize
      = (fs.getD (i - st.currentBlockIndex).toNat default).blockSize := by
  induction fs generalizing st with
  | nil =>
    simp only [List.length_nil] at h2
    omega
  | cons f fs ih =>
    simp only [List.length_cons] at h2
    push_cast at h2
    have hcur := registerVar_cursor f.sizeofDataType f.addr f.length i st
    by_cases hc : i = st.currentBlockIndex
    · have hj : (i - st.currentBlockIndex).toNat = 0 := by omega
      have hhit := registerVar_hit f.sizeofDataType f.addr f.length i st hc
      have htail := registerFields_miss fs i
        (RegisterVar f.sizeofDataType f.addr f.length i st)
        (by rw [hcur]; omega)
      simp only [registerFields, List.foldl_cons, registerVarField] at htail ⊢
      rw [htail.1, htail.2, hhit.1, hhit.2, hj]
      exact ⟨rfl, rfl⟩
    · have ih2 := ih (RegisterVar f.sizeofDataType f.addr f.length i st)
        (by rw [hcur]; omega) (by rw [hcur]; omega)
      rw [hcur] at ih2
      have hn : (i - st.currentBlockIndex).toNat
          = (i - (st.currentBlockIndex + 1)).toNat + 1 := by omega
      simp only [registerFields, List.foldl_cons, registerVarField] at ih2 ⊢
      rw [ih2.1, ih2.2, hn]
      simp [List.getD_cons_succ]

theorem getD_map_blockSize (fs : List VarField) (n : Nat)
    (h : n < fs.length) :
    (fs.map VarField.blockSize).getD n 0 = (fs.getD n default).blockSize := by
  induction fs generalizing n with
  | nil => simp at h
  | cons f fs ih =>
    cases n with
    | zero => simp
    | succ n =>
      simp only [List.length_cons, Nat.succ_lt_succ_iff] at h
      simp only [List.map_cons, List.getD_cons_succ]
      exact ih n h

theorem sum_range_map_getD (l : List Nat) :
    ((List.range l.length).map fun i => l.getD i 0).sum = l.sum := by
  induction l with
  | nil => rfl
  | cons a l ih =>
    rw [List.length_cons, List.range_succ_eq_map]
    simp only [List.map_cons, List.map_map, List.sum_cons, List.getD_cons_zero]
    have hmap : (List.range l.length).map
          ((fun i => (a :: l).getD i 0) ∘ Nat.succ)
        = (List.range l.length).map fun i => l.getD i 0 := by
      apply List.map_congr_left
      intro x _
      simp [Function.comp]
    rw [hmap, ih]

theorem loadChunks_flatten (bs : List (List Nat)) :
    loadChunks (bs.map List.length) bs.flatten = bs := by
  induction bs with
  | nil => rfl
  | cons b bs ih =>
    simp only [List.map_cons, List.flatten_cons, loadChunks]
    rw [List.take_left, List.drop_left, ih]

theorem foldl_sumNumBlock (es : List SerIface) (a : Nat) :
    es.foldl SumNumBlock a = a + (es.map SerIface.numBlock).sum := by
  induction es generalizing a with
  | nil => simp
  | cons e es ih =>
    simp only [List.foldl_cons, ih, SumNumBlock, List.map_cons,
      List.sum_cons]
    ring

theorem foldl_sumSerializableSize (es : List SerIface) (a : Nat) :
    es.foldl SumSerializableSize a
      = a + (es.map SerIface.serializableSize).sum := by
  induction es generalizing a with
  | nil => simp
  | cons e es ih =>
    simp only [List.foldl_cons, ih, SumSerializableSize, List.map_cons,
      List.sum_cons]
    ring

theorem initRegState_cur : initRegState.currentBlockIndex = 0 := rfl

theorem compositeAB_cursor (A : VarField) (B : SerIface) (isLoad : Bool)
    (i : Int) :
    (compositeAB A B isLoad i).currentBlockIndex = 1 + B.numBlock := by
  simp only [compositeAB, registerVarField]
  rw [rcs_cursor, registerVar_cursor,
    initRegState_cur]
  omega

theorem compositeAB_missAbove (A : VarField) (B : SerIface) (isLoad : Bool)
    (i : Int) (h : (1 + B.numBlock : Int) ≤ i) :
    (compositeAB A B isLoad i).pData = none
    ∧ (compositeAB A B isLoad i).blockSize = 0 := by
  have hA := registerVar_miss A.sizeofDataType A.addr A.length i initRegState
    (by rw [initRegState_cur]; omega)
  have hAcur := registerVar_cursor A.sizeofDataType A.addr A.length i
    initRegState
  rw [initRegState_cur] at hAcur
  have hB := rcs_miss B isLoad i
    (RegisterVar A.sizeofDataType A.addr A.length i initRegState)
    (by rw [hAcur]; omega)
  simp only [compositeAB, registerVarField]
  rw [hB.1, hB.2, hA.1, hA.2]
  exact ⟨rfl, rfl⟩

/-! ### Claim theorems -/

/-- Claim C4: every call to `RegisterVar`, with any datum, any length and
any requested block index, advances the registration cursor by exactly 1
regardless of the length; and when the requested index equals the cursor
on entry, the output block size is set to `length * sizeof(element)` and
the output address is set to the datum's address (the whole array is a
single block). -/
theorem registerVar_advances_one_and_registers_whole_array
    (sizeofDataType : Nat) (addr : Ptr) (length : Nat) (blockIndex : Int)
    (st : RegState) :
    (RegisterVar sizeofDataType addr length blockIndex st).currentBlockIndex
      = st.currentBlockIndex + 1
    ∧ (blockIndex = st.currentBlockIndex →
        (RegisterVar sizeofDataType addr length blockIndex st).blockSize
          = length * sizeofDataType
        ∧ (RegisterVar sizeofDataType addr length blockIndex st).pData
          = some addr) := by
  refine ⟨registerVar_cursor _ _ _ _ _, fun h => ?_⟩
  have hh := registerVar_hit sizeofDataType addr length blockIndex st h
  rw [Nat.mul_comm] at hh
  exact hh

/-- Witness for C4: `RegisterVar` with element size 8, address 100,
length 5, requested index 0 against the initial state. -/
theorem registerVar_advances_one_and_registers_whole_array_witness :
    (RegisterVar 8 100 5 0 initRegState).currentBlockIndex = 0 + 1
    ∧ ((RegisterVar 8 100 5 0 initRegState).blockSize = 5 * 8
      ∧ (RegisterVar 8 100 5 0 initRegState).pData = some 100) := by
  have h := registerVar_advances_one_and_registers_whole_array
    8 100 5 0 initRegState
  exact ⟨h.1, h.2 (by decide)⟩

/-- Claim C5: a call to `RegisterConstSizeSerializable` with nested
entity `E` and requested index `i` delegates, when `i` lies in
`[cursor, cursor + E.GetNumBlock())`, to the entity's own block accessor
at local index `i - cursor` with the same `isLoad` flag, storing its
result in the output address and size; the cursor always advances by
`E.GetNumBlock()`; on a miss the output address and size are
unchanged. -/
theorem registerConstSizeSerializable_delegates_and_advances
    (rData : SerIface) (isLoad : Bool) (blockIndex : Int) (st : RegState) :
    (RegisterConstSizeSerializable rData isLoad blockIndex
        st).currentBlockIndex
      = st.currentBlockIndex + rData.numBlock
    ∧ ((st.currentBlockIndex ≤ blockIndex ∧
          blockIndex < st.currentBlockIndex + rData.numBlock) →
        (RegisterConstSizeSerializable rData isLoad blockIndex st).pData
          = (rData.getBlock (blockIndex - st.currentBlockIndex)
              st.blockSize isLoad).1
        ∧ (RegisterConstSizeSerializable rData isLoad blockIndex
            st).blockSize
          = (rData.getBlock (blockIndex - st.currentBlockIndex)
              st.blockSize isLoad).2)
    ∧ (¬(st.currentBlockIndex ≤ blockIndex ∧
          blockIndex < st.currentBlockIndex + rData.numBlock) →
        (RegisterConstSizeSerializable rData isLoad blockIndex st).pData
          = st.pData
        ∧ (RegisterConstSizeSerializable rData isLoad blockIndex
            st).blockSize = st.blockSize) :=
  ⟨rcs_cursor _ _ _ _,
   fun h => rcs_hit _ _ _ _ h,
   fun h => rcs_miss _ _ _ _ h⟩

/-- Witness for C5: a nested entity with 2 blocks hit at requested
index 1 from the initial state. -/
theorem registerConstSizeSerializable_delegates_and_advances_witness :
    (RegisterConstSizeSerializable
        (SerIface.mk 2 8 (fun i s _ => (some (200 + i.toNat), 4 + s)))
        false 1 initRegState).pData = some 201
    ∧ (RegisterConstSizeSerializable
        (SerIface.mk 2 8 (fun i s _ => (some (200 + i.toNat), 4 + s)))
        false 1 initRegState).blockSize = 4 := by
  have h := (registerConstSizeSerializable_delegates_and_advances
    (SerIface.mk 2 8 (fun i s _ => (some (200 + i.toNat), 4 + s)))
    false 1 initRegState).2.1 (by exact ⟨by decide, by decide⟩)
  exact ⟨h.1, h.2⟩

/-- Claim C6: a call to `RegisterConstSizeSerializables` with
`length == 0` leaves the registration cursor, the output block size and
the output address unchanged (the state is returned untouched), so the
composite registering `A`, `B` and an empty array behaves exactly like
the composite registering only `A` and `B`. -/
theorem registerConstSizeSerializables_zero_length_noop
    (rData : Nat → SerIface) (isLoad : Bool) (blockIndex : Int)
    (st : RegState) :
    RegisterConstSizeSerializables rData 0 isLoad blockIndex st = st
    ∧ (∀ (A : VarField) (B : SerIface),
        compositeABC A B rData 0 isLoad blockIndex
          = compositeAB A B isLoad blockIndex) := by
  refine ⟨rcss_zero _ _ _ _, fun A B => ?_⟩
  simp only [compositeABC]
  exact rcss_zero _ _ _ _

/-- Claim C7: folding `SumNumBlock` (respectively `SumSerializableSize`)
with initial accumulator 0 over any finite sequence of entities returns
exactly the sum of their `GetNumBlock()` (respectively
`GetSerializableSize()`) values, for zero, one or more elements. -/
theorem sum_functors_fold_to_sums (es : List SerIface) :
    es.foldl SumNumBlock 0 = (es.map SerIface.numBlock).sum
    ∧ es.foldl SumSerializableSize 0
      = (es.map SerIface.serializableSize).sum := by
  constructor
  · simpa using foldl_sumNumBlock es 0
  · simpa using foldl_sumSerializableSize es 0

/-- Claim C9: for `length > 0`, `RegisterConstSizeSerializables`
computes the in-range test, the element/local-index mapping and the
cursor advance solely from the first element's block count
`rData[0].GetNumBlock()`, even when the array's elements report
differing block counts. -/
theorem registerConstSizeSerializables_uses_first_element_count
    (rData : Nat → SerIface) (length : Nat) (isLoad : Bool)
    (blockIndex : Int) (st : RegState) (hlen : 0 < length) :
    (RegisterConstSizeSerializables rData length isLoad blockIndex
        st).currentBlockIndex
      = st.currentBlockIndex + ((length * (rData 0).numBlock : Nat) : Int)
    ∧ ((st.currentBlockIndex ≤ blockIndex ∧
          blockIndex < st.currentBlockIndex +
            ((length * (rData 0).numBlock : Nat) : Int)) →
        (RegisterConstSizeSerializables rData length isLoad blockIndex
            st).pData
          = ((rData ((blockIndex - st.currentBlockIndex).toNat
                / (rData 0).numBlock)).getBlock
              (((blockIndex - st.currentBlockIndex).toNat
                % (rData 0).numBlock : Nat) : Int)
              st.blockSize isLoad).1
        ∧ (RegisterConstSizeSerializables rData length isLoad blockIndex
            st).blockSize
          = ((rData ((blockIndex - st.currentBlockIndex).toNat
                / (rData 0).numBlock)).getBlock
              (((blockIndex - st.currentBlockIndex).toNat
                % (rData 0).numBlock : Nat) : Int)
              st.blockSize isLoad).2) :=
  ⟨rcss_cursor _ _ _ _ _ hlen,
   fun h => rcss_hit _ _ _ _ _ hlen h⟩

/-- An array whose element 0 reports 2 blocks while every other element
reports 7 blocks, used to witness C9. -/
def mixedArray : Nat → SerIface := fun j =>
  if j = 0 then SerIface.mk 2 4 (fun i _ _ => (some (300 + i.toNat), 11))
  else SerIface.mk 7 9 (fun i _ _ => (some (400 + i.toNat), 22))

/-- Witness for C9: length 3 over `mixedArray`, requested index 3: the
cursor advances by `3 * 2 = 6` (element 0's count, not element 1's 7)
and the request resolves to element `3 / 2 = 1` at local index
`3 % 2 = 1`. -/
theorem registerConstSizeSerializables_uses_first_element_count_witness :
    (RegisterConstSizeSerializables mixedArray 3 false 3
        initRegState).currentBlockIndex = 6
    ∧ (RegisterConstSizeSerializables mixedArray 3 false 3
        initRegState).pData = some 401
    ∧ (RegisterConstSizeSerializables mixedArray 3 false 3
        initRegState).blockSize = 22 := by
  have h := registerConstSizeSerializables_uses_first_element_count
    mixedArray 3 false 3 initRegState (by decide)
  have h2 := h.2 (by exact ⟨by decide, by decide⟩)
  exact ⟨h.1.trans (by decide), h2.1.trans (by decide),
    h2.2.trans (by decide)⟩

/-- Claim C10: `RegisterVar` with `length == 0` still occupies exactly
one block index: the cursor advances by 1 and, on a match, the output
block size is set to 0 while the output address is still set to the
datum's address — in contrast to `RegisterConstSizeSerializables` with
`length == 0`, which consumes no block index at all. -/
theorem registerVar_zero_length_occupies_one_block
    (sizeofDataType : Nat) (addr : Ptr) (blockIndex : Int)
    (st : RegState) :
    (RegisterVar sizeofDataType addr 0 blockIndex st).currentBlockIndex
      = st.currentBlockIndex + 1
    ∧ (blockIndex = st.currentBlockIndex →
        (RegisterVar sizeofDataType addr 0 blockIndex st).blockSize = 0
        ∧ (RegisterVar sizeofDataType addr 0 blockIndex st).pData
          = some addr)
    ∧ (∀ (rData : Nat → SerIface) (isLoad : Bool),
        RegisterConstSizeSerializables rData 0 isLoad blockIndex st
          = st) := by
  refine ⟨registerVar_cursor _ _ _ _ _, fun h => ?_,
    fun rData isLoad => rcss_zero _ _ _ _⟩
  have hh := registerVar_hit sizeofDataType addr 0 blockIndex st h
  simpa using hh

/-- Witness for C10: `RegisterVar` with length 0, element size 4,
address 55, requested index 2 against a cursor already at 2. -/
theorem registerVar_zero_length_occupies_one_block_witness :
    (RegisterVar 4 55 0 2 ⟨0, 2, none⟩).currentBlockIndex = 3
    ∧ ((RegisterVar 4 55 0 2 ⟨0, 2, none⟩).blockSize = 0
      ∧ (RegisterVar 4 55 0 2 ⟨0, 2, none⟩).pData = some 55) := by
  have h := registerVar_zero_length_occupies_one_block 4 55 2 ⟨0, 2, none⟩
  exact ⟨h.1.trans (by decide), h.2.1 (by decide)⟩

/-- Claim C3: a composite whose `GetBlock` registers, in order, a
primitive field `A` (1 block), a nested constant-size entity `B` with
`n` blocks, and an array `C` of `m` entities each with `k` blocks,
reports `1 + n + m*k` total blocks (final cursor value), and every
requested index in C's range `[offset, offset + m*k)` with
`offset = 1 + n` resolves to array element `(index - offset) / k` at
that element's local block index `(index - offset) % k`. -/
theorem composite_block_count_and_array_mapping (A : VarField)
    (B : SerIface) (C : Nat → SerIface) (m k : Nat)
    (hk : ∀ j, j < m → (C j).numBlock = k) :
    (∀ (isLoad : Bool) (blockIndex : Int),
        (compositeABC A B C m isLoad blockIndex).currentBlockIndex
          = ((1 + B.numBlock + m * k : Nat) : Int))
    ∧ (∀ (isLoad : Bool) (blockIndex : Int),
        (1 + B.numBlock : Int) ≤ blockIndex →
        blockIndex < (1 + B.numBlock : Int) + ((m * k : Nat) : Int) →
        (compositeABC A B C m isLoad blockIndex).pData
          = ((C ((blockIndex - (1 + B.numBlock : Int)).toNat / k)).getBlock
              (((blockIndex - (1 + B.numBlock : Int)).toNat % k : Nat)
                : Int) 0 isLoad).1
        ∧ (compositeABC A B C m isLoad blockIndex).blockSize
          = ((C ((blockIndex - (1 + B.numBlock : Int)).toNat / k)).getBlock
              (((blockIndex - (1 + B.numBlock : Int)).toNat % k : Nat)
                : Int) 0 isLoad).2) := by
  refine ⟨fun isLoad i => ?_, fun isLoad i h1 h2 => ?_⟩
  · rcases Nat.eq_zero_or_pos m with hm | hm
    · subst hm
      rw [compositeABC, rcss_zero,
        compositeAB_cursor]
      push_cast
      ring
    · rw [compositeABC,
        rcss_cursor _ _ _ _ _ hm,
        compositeAB_cursor, hk 0 hm]
      push_cast
      ring
  · have hmkpos : (0 : Int) < ((m * k : Nat) : Int) := by linarith
    have hmk : 0 < m * k := by exact_mod_cast hmkpos
    have hm : 0 < m := by
      rcases Nat.eq_zero_or_pos m with hm0 | hm0
      · rw [hm0, Nat.zero_mul] at hmk
        exact absurd hmk (lt_irrefl 0)
      · exact hm0
    have hk0 : (C 0).numBlock = k := hk 0 hm
    have hst := compositeAB_missAbove A B isLoad i h1
    have hcur := compositeAB_cursor A B isLoad i
    have hhit := rcss_hit C m isLoad i
      (compositeAB A B isLoad i) hm
      (by rw [hcur, hk0]; exact ⟨h1, h2⟩)
    rw [compositeABC] at *
    rw [hhit.1, hhit.2, hcur, hst.2, hk0]
    exact ⟨rfl, rfl⟩

/-- A nested entity with 2 blocks used to witness C3. -/
def nestedB : SerIface :=
  SerIface.mk 2 8 (fun i _ _ => (some (100 + i.toNat), 4))

/-- An array of identical entities with 2 blocks each used to witness
C3. -/
def arrayC : Nat → SerIface := fun j =>
  SerIface.mk 2 6 (fun i _ _ => (some (500 + 10 * j + i.toNat), 3))

/-- Witness for C3: `A` (1 block), `B` with 2 blocks, `C` with 2
elements of 2 blocks each: 7 total blocks, and requested index 5 in C's
range `[3, 7)` resolves to element `(5-3)/2 = 1` at local index
`(5-3)%2 = 0`. -/
theorem composite_block_count_and_array_mapping_witness :
    (compositeABC ⟨8, 1, 10⟩ nestedB arrayC 2 false 5).currentBlockIndex
      = 7
    ∧ (compositeABC ⟨8, 1, 10⟩ nestedB arrayC 2 false 5).pData
      = some 510
    ∧ (compositeABC ⟨8, 1, 10⟩ nestedB arrayC 2 false 5).blockSize
      = 3 := by
  have h := composite_block_count_and_array_mapping ⟨8, 1, 10⟩ nestedB
    arrayC 2 2 (fun j _ => rfl)
  have h2 := h.2 false 5 (by decide) (by decide)
  exact ⟨(h.1 false 5).trans (by decide), h2.1.trans (by decide),
    h2.2.trans (by decide)⟩

/-- Claim C2: for the list-of-fields entity, `GetSerializableSize()`
equals the sum of the block sizes reported by `pGetBlock(i, false)` for
`i` in `[0, GetNumBlock())`, and an enumeration from index 0 first
returns the sentinel (null pointer) at index `GetNumBlock()`,
immediately after index `GetNumBlock() - 1` — every earlier index
returns a non-null block. -/
theorem size_consistency_and_sentinel (fs : List VarField) :
    ((List.range (fieldsGetNumBlock fs)).map
        fun i : Nat => (fieldsGetBlock fs (i : Int)).2).sum
      = fieldsGetSerializableSize fs
    ∧ (∀ i : Nat, i < fieldsGetNumBlock fs →
        (fieldsGetBlock fs i).1 ≠ none)
    ∧ (fieldsGetBlock fs (fieldsGetNumBlock fs)).1 = none := by
  have hblock : ∀ i : Nat, i < fs.length →
      (fieldsGetBlock fs i).1 = some (fs.getD i default).addr
      ∧ (fieldsGetBlock fs i).2 = (fs.getD i default).blockSize := by
    intro i hi
    have h1 : initRegState.currentBlockIndex ≤ (i : Int) := by
      rw [initRegState_cur]
      exact_mod_cast Nat.zero_le i
    have h2 : (i : Int) < initRegState.currentBlockIndex + fs.length := by
      rw [initRegState_cur]
      omega
    have h := registerFields_hit fs i initRegState h1 h2
    rw [initRegState_cur] at h
    have hi0 : ((i : Int) - 0).toNat = i := by omega
    rw [hi0] at h
    exact ⟨h.1, h.2⟩
  refine ⟨?_, fun i hi => ?_, ?_⟩
  · have hcongr : ((List.range fs.length).map
          fun i : Nat => (fieldsGetBlock fs (i : Int)).2)
        = (List.range fs.length).map
          fun i : Nat => (fs.map VarField.blockSize).getD i 0 := by
      apply List.map_congr_left
      intro x hx
      rw [(hblock x (List.mem_range.mp hx)).2,
        getD_map_blockSize fs x (List.mem_range.mp hx)]
    have hlen : ((fs.map VarField.blockSize).length) = fs.length :=
      List.length_map _ _
    have hs := sum_range_map_getD (fs.map VarField.blockSize)
    rw [hlen] at hs
    show ((List.range fs.length).map
        fun i : Nat => (fieldsGetBlock fs (i : Int)).2).sum
      = fieldsGetSerializableSize fs
    rw [hcongr, hs]
    rfl
  · rw [(hblock i hi).1]
    exact Option.some_ne_none _
  · have h := registerFields_miss fs (fs.length : Int) initRegState
      (by rw [initRegState_cur]; omega)
    exact h.1

/-- Witness for C2: an entity with an 8-byte field and a 4-byte field:
the reported sizes over indices 0 and 1 sum to 12, index 0 is non-null,
and index 2 (the block count) is the sentinel. -/
theorem size_consistency_and_sentinel_witness :
    ((List.range 2).map
        fun i : Nat =>
          (fieldsGetBlock [⟨8, 1, 10⟩, ⟨4, 1, 20⟩] (i : Int)).2).sum = 12
    ∧ (fieldsGetBlock [⟨8, 1, 10⟩, ⟨4, 1, 20⟩] 0).1 ≠ none
    ∧ (fieldsGetBlock [⟨8, 1, 10⟩, ⟨4, 1, 20⟩] 2).1 = none := by
  have h := size_consistency_and_sentinel [⟨8, 1, 10⟩, ⟨4, 1, 20⟩]
  exact ⟨h.1.trans (by decide), h.2.1 0 (by decide), h.2.2⟩

/-- Claim C1: saving an entity and loading the written stream into a
freshly constructed entity of identical structural configuration (the
same block sizes in the same order) reproduces the saved entity's
in-memory state byte for byte, in every block. -/
theorem save_load_roundtrip (e fresh : MemEntity)
    (hcfg : fresh.config = e.config) :
    fresh.load e.save = e := by
  rcases e with ⟨bs⟩
  show (⟨loadChunks fresh.config (List.flatten bs)⟩ : MemEntity)
    = ⟨bs⟩
  rw [hcfg]
  show (⟨loadChunks (bs.map List.length) (List.flatten bs)⟩ : MemEntity)
    = ⟨bs⟩
  rw [loadChunks_flatten]

/-- Witness for C1: blocks `{7}` and `{1, 2}` saved and loaded into a
zero-initialized entity of the same configuration. -/
theorem save_load_roundtrip_witness :
    MemEntity.load ⟨[[0], [0, 0]]⟩ (MemEntity.save ⟨[[7], [1, 2]]⟩)
      = ⟨[[7], [1, 2]]⟩ :=
  save_load_roundtrip ⟨[[7], [1, 2]]⟩ ⟨[[0], [0, 0]]⟩ (by decide)

/-- Claim C8: `Load` fails deterministically with `fileNotFound` when
the input file does not exist and with `shortRead` when the file holds
fewer bytes than the entity's `GetSerializableSize()`; the failure is
returned to the caller (no retry), and bytes are only transferred when
the file is long enough (no zero-filling). -/
theorem load_failure_semantics (e : MemEntity) :
    e.loadFromFile none = .error .fileNotFound
    ∧ (∀ bytes : List Nat, bytes.length < e.serializableSize →
        e.loadFromFile (some bytes) = .error .shortRead)
    ∧ (∀ bytes : List Nat, e.serializableSize ≤ bytes.length →
        e.loadFromFile (some bytes) = .ok (e.load bytes)) := by
  refine ⟨rfl, fun bytes h => ?_, fun bytes h => ?_⟩
  · simp only [MemEntity.loadFromFile, if_pos h]
  · simp only [MemEntity.loadFromFile, if_neg (Nat.not_lt.mpr h)]

/-- Witness for C8: an entity of serialized size 3 against a missing
file, a 1-byte file, and a 3-byte file. -/
theorem load_failure_semantics_witness :
    MemEntity.loadFromFile ⟨[[1, 2, 3]]⟩ none = .error .fileNotFound
    ∧ MemEntity.loadFromFile ⟨[[1, 2, 3]]⟩ (some [9])
      = .error .shortRead
    ∧ MemEntity.loadFromFile ⟨[[1, 2, 3]]⟩ (some [4, 5, 6])
      = .ok (MemEntity.load ⟨[[1, 2, 3]]⟩ [4, 5, 6]) := by
  have h := load_failure_semantics ⟨[[1, 2, 3]]⟩
  exact ⟨h.1, h.2.1 [9] (by decide), h.2.2 [4, 5, 6] (by decide)⟩

end iblbm
